import Mathlib

/-!
Verification of the MetaLife OS content automation pipeline specification
against the repository.  The pipeline engine itself (Ingestor, Validator,
Orchestrator, Publisher, ...) is described in the repository only in prose
(README / integration report); the executable model below is therefore built
from the specification text.  The web-studio route handler, the educational
platform component and the Mother-Child UI message handler are embedded from
the TypeScript sources.
-/

namespace ContentPipeline

/-- Modelled from the spec: the five independent quality dimensions scored by
the Validator (hook strength, topical relevance, readability, SEO fitness,
originality).  The Validator component is absent from the sources. -/
inductive Dimension where
  | hook
  | relevance
  | readability
  | seo
  | originality
deriving DecidableEq

/-- Modelled from the spec: the per-draft quality scores, one value per
dimension, each intended to lie in the unit interval. -/
structure QualityScores where
  hook : ℚ
  relevance : ℚ
  readability : ℚ
  seo : ℚ
  originality : ℚ
deriving DecidableEq

/-- The score of one dimension. -/
def QualityScores.dim (s : QualityScores) : Dimension → ℚ
  | .hook => s.hook
  | .relevance => s.relevance
  | .readability => s.readability
  | .seo => s.seo
  | .originality => s.originality

/-- Modelled from the spec: aggregate score = arithmetic mean of the five
dimension scores. -/
def QualityScores.aggregate (s : QualityScores) : ℚ :=
  (s.hook + s.relevance + s.readability + s.seo + s.originality) / 5

/-- The least of the five dimension scores. -/
def QualityScores.minScore (s : QualityScores) : ℚ :=
  min s.hook (min s.relevance (min s.readability (min s.seo s.originality)))

/-- The worst-performing dimension: the first dimension, in the fixed
dimension order, whose score attains the minimum. -/
def QualityScores.worstDim (s : QualityScores) : Dimension :=
  if s.hook = s.minScore then .hook
  else if s.relevance = s.minScore then .relevance
  else if s.readability = s.minScore then .readability
  else if s.seo = s.minScore then .seo
  else .originality

/-- Modelled from the spec: a draft validation outcome; rejection carries the
worst-performing dimension as its reason. -/
inductive ValidationOutcome where
  | pending
  | accepted
  | rejected (worst : Dimension)
deriving DecidableEq

/-- Modelled from the spec: default aggregate threshold 0.7. -/
def defaultThreshold : ℚ := 7 / 10

/-- Modelled from the spec: default per-dimension floor 0.4. -/
def defaultFloor : ℚ := 2 / 5

/-- Modelled from the spec: the Validator accept/reject decision.  Accepted
iff the aggregate is at least the threshold and no individual dimension is
below the floor; otherwise rejected naming the worst-performing dimension. -/
def QualityScores.validate (s : QualityScores) : ValidationOutcome :=
  if defaultThreshold ≤ s.aggregate ∧ defaultFloor ≤ s.minScore then .accepted
  else .rejected s.worstDim

/-- Modelled from the spec: the pipeline stages of the Orchestrator state
machine, with the terminal failure stage.  The Orchestrator is absent from
the sources. -/
inductive Stage where
  | ingested
  | transcribed
  | generated
  | validated
  | rendered
  | published
  | failed
deriving DecidableEq

/-- Position of a stage along the forward chain; the terminal failure stage
sits past the whole chain so that every legal transition strictly increases
the index. -/
def Stage.idx : Stage → Nat
  | .ingested => 0
  | .transcribed => 1
  | .generated => 2
  | .validated => 3
  | .rendered => 4
  | .published => 5
  | .failed => 6

/-- The successor stage along the forward chain. -/
def Stage.next : Stage → Stage
  | .ingested => .transcribed
  | .transcribed => .generated
  | .generated => .validated
  | .validated => .rendered
  | .rendered => .published
  | .published => .published
  | .failed => .failed

/-- Terminal stages: no automated transition leaves them. -/
def Stage.terminal : Stage → Bool
  | .published => true
  | .failed => true
  | _ => false

/-- Modelled from the spec: reasons recorded for item-fatal failures. -/
inductive FailReason where
  | transcriptionExhausted
  | generationFailedAll
  | publishFailedAll
deriving DecidableEq

/-- Modelled from the spec: one auditLog record of a stage transition. -/
structure AuditRecord where
  stage : Stage
  timestamp : Nat
  reason : Option FailReason
deriving DecidableEq

/-- Modelled from the spec: one time-stamped transcript segment. -/
structure TranscriptSegment where
  startTime : Nat
  endTime : Nat
  text : String
deriving DecidableEq

/-- Modelled from the spec: the generation service response for one
platform. -/
structure GenContent where
  title : String
  body : String
  tags : List String
deriving DecidableEq

/-- Platform identifiers. -/
abbrev Platform := Nat

/-- Modelled from the spec: a publication attempt status. -/
inductive PubStatus where
  | succeeded
  | failed
  | retrying
deriving DecidableEq

/-- Modelled from the spec: the per-platform publication record. -/
structure PublicationResult where
  status : PubStatus
  externalRef : Option String
  attempts : Nat
  lastError : Option String
deriving DecidableEq

/-- Modelled from the spec: one platform-specific generated draft. -/
structure Draft where
  platform : Platform
  title : String
  body : String
  tags : List String
  qualityScores : Option QualityScores
  validationOutcome : ValidationOutcome
  renderedArtifactRef : Option String
deriving DecidableEq

/-- Modelled from the spec: the ContentItem record, the unit of work.
Publication results are kept as a single platform-indexed mapping on the
item (each Draft is per-platform, so the per-draft mapping of the data
model collapses to this). -/
structure ContentItem where
  id : Nat
  fingerprint : Nat
  sourceRef : String
  transcript : Option (List TranscriptSegment)
  drafts : List (Platform × Draft)
  publicationResults : List (Platform × PublicationResult)
  stage : Stage
  auditLog : List AuditRecord
deriving DecidableEq

/-- Modelled from the spec: a fresh ContentItem emitted by the Ingestor in
stage Ingested, with the creation transition recorded. -/
def mkItem (id fp : Nat) (src : String) : ContentItem :=
  { id := id
    fingerprint := fp
    sourceRef := src
    transcript := none
    drafts := []
    publicationResults := []
    stage := .ingested
    auditLog := [{ stage := .ingested, timestamp := 0, reason := none }] }

/-- Modelled from the spec: the Orchestrator records a stage transition by
appending exactly one auditLog record; the timestamp is a logical clock
(the number of records so far), so timestamps are strictly increasing. -/
def appendAudit (it : ContentItem) (st : Stage) (r : Option FailReason) : ContentItem :=
  { it with
      stage := st
      auditLog := it.auditLog ++ [{ stage := st, timestamp := it.auditLog.length, reason := r }] }

/-- Modelled from the spec: resolved outcomes of the external services for
one item, reported to the Orchestrator.  A `none` transcription means the
retry ceiling was exhausted; a `none` per-platform generation or render
means that platform failed after retries; the publish Boolean tells whether
the platform dispatch eventually succeeded or exhausted its retries. -/
inductive PipeEvent where
  | transcribeDone (res : Option (List TranscriptSegment))
  | generateDone (res : List (Platform × Option GenContent))
  | validateDone (scores : List (Platform × QualityScores))
  | renderDone (res : List (Platform × Option String))
  | publishDone (res : List (Platform × Bool))

/-- A fresh pending draft built from a generation response. -/
def mkDraft (p : Platform) (c : GenContent) : Draft :=
  { platform := p
    title := c.title
    body := c.body
    tags := c.tags
    qualityScores := none
    validationOutcome := .pending
    renderedArtifactRef := none }

/-- The resolved publication record for one platform dispatch. -/
def mkPublication (ok : Bool) : PublicationResult :=
  if ok then
    { status := .succeeded, externalRef := some "ext", attempts := 1, lastError := none }
  else
    { status := .failed, externalRef := none, attempts := 3, lastError := some "exhausted" }

/-- Modelled from the spec: the Orchestrator advancing one ContentItem on a
resolved stage outcome.  Events arriving in the wrong stage (including any
terminal stage) leave the item unchanged.  Exhausted transcription,
all-platform generation failure and all-platform publish failure are item-fatal; partial
failures are isolated per platform. -/
def stepItem (it : ContentItem) (e : PipeEvent) : ContentItem :=
  match e with
  | .transcribeDone res =>
    if it.stage = .ingested then
      match res with
      | some segs => appendAudit { it with transcript := some segs } .transcribed none
      | none => appendAudit it .failed (some .transcriptionExhausted)
    else it
  | .generateDone res =>
    if it.stage = .transcribed then
      let ds := res.filterMap (fun pr => pr.2.map (fun c => (pr.1, mkDraft pr.1 c)))
      if ds.isEmpty then appendAudit it .failed (some .generationFailedAll)
      else appendAudit { it with drafts := ds } .generated none
    else it
  | .validateDone scores =>
    if it.stage = .generated then
      let ds := it.drafts.map (fun pd =>
        if pd.2.validationOutcome = .pending then
          match scores.lookup pd.1 with
          | some q =>
            (pd.1, { pd.2 with qualityScores := some q, validationOutcome := q.validate })
          | none => pd
        else pd)
      if ds.all (fun pd => !(pd.2.validationOutcome == .pending)) then
        appendAudit { it with drafts := ds } .validated none
      else { it with drafts := ds }
    else it
  | .renderDone res =>
    if it.stage = .validated then
      let ds := it.drafts.map (fun pd =>
        if pd.2.validationOutcome = .accepted then
          match res.lookup pd.1 with
          | some (some ref) => (pd.1, { pd.2 with renderedArtifactRef := some ref })
          | _ => pd
        else pd)
      appendAudit { it with drafts := ds } .rendered none
    else it
  | .publishDone res =>
    if it.stage = .rendered then
      let prs := res.map (fun pb => (pb.1, mkPublication pb.2))
      if res.any (fun pb => pb.2) then
        appendAudit { it with publicationResults := prs } .published none
      else
        appendAudit { it with publicationResults := prs } .failed (some .publishFailedAll)
    else it

/-- An item driven from ingestion through a sequence of resolved outcomes. -/
def runItem (id fp : Nat) (src : String) (evs : List PipeEvent) : ContentItem :=
  evs.foldl stepItem (mkItem id fp src)

/-- Replaying an auditLog: apply the recorded transitions in order starting
from no stage; the result is the stage of the last record. -/
def replay (log : List AuditRecord) : Option Stage :=
  log.foldl (fun _ r => some r.stage) none

/-- The auditLog well-formedness invariant maintained by the Orchestrator:
timestamps are exactly the logical clock (hence strictly increasing), the
replayed log yields the current stage, and the recorded stage indices are
strictly increasing and bounded by the current stage. -/
def GoodAudit (it : ContentItem) : Prop :=
  it.auditLog.map AuditRecord.timestamp = List.range it.auditLog.length ∧
  replay it.auditLog = some it.stage ∧
  (it.auditLog.map (fun a => a.stage.idx)).Pairwise (· < ·) ∧
  ∀ a ∈ it.auditLog, a.stage.idx ≤ it.stage.idx

/-- Modelled from the spec: the Fingerprint Store hash `fingerprintOf` — a
pure deterministic hash over the content bytes; a 64-bit polynomial rolling
hash stands in for the cryptographic hash, whose implementation is absent
from the sources. -/
def fingerprintOf (bytes : List Nat) : Nat :=
  bytes.foldl (fun h b => (h * 31 + b) % 2 ^ 64) 5381

/-- Modelled from the spec: the durable pipeline state — the registered
ContentItems (never deleted by the pipeline itself) and the next fresh item
identifier. -/
structure PipelineState where
  nextId : Nat
  items : List ContentItem

/-- Modelled from the spec: the result of one ingestion — a fresh item, or
the expected DuplicateContent outcome referencing the original item. -/
inductive IngestOutcome where
  | created (id : Nat)
  | duplicateContent (originalId : Nat)
deriving DecidableEq

/-- Modelled from the spec: the Ingestor — compute the fingerprint of the
source bytes and atomically register-or-reject: if an item with this
fingerprint is already registered, return DuplicateContent referencing its
id and create nothing; otherwise emit a fresh ContentItem in stage
Ingested. -/
def ingest (s : PipelineState) (src : String) (bytes : List Nat) :
    PipelineState × IngestOutcome :=
  match s.items.find? (fun it => it.fingerprint == fingerprintOf bytes) with
  | some orig => (s, .duplicateContent orig.id)
  | none =>
    ({ nextId := s.nextId + 1,
       items := s.items ++ [mkItem s.nextId (fingerprintOf bytes) src] },
     .created s.nextId)

/-- Whether an ingestion outcome is the DuplicateContent outcome. -/
def isDuplicateOutcome : IngestOutcome → Bool
  | .duplicateContent _ => true
  | .created _ => false

/-- Modelled from the spec: the externally visible pipeline operations — a
new source file arriving at the Ingestor, or a resolved stage outcome for
one item. -/
inductive PipelineEvent where
  | ingestFile (src : String) (bytes : List Nat)
  | itemEvent (id : Nat) (e : PipeEvent)

/-- One pipeline operation on the durable state. -/
def stepPipeline (s : PipelineState) (ev : PipelineEvent) : PipelineState :=
  match ev with
  | .ingestFile src bytes => (ingest s src bytes).1
  | .itemEvent id e =>
    { s with items := s.items.map (fun it => if it.id == id then stepItem it e else it) }

/-- The empty initial pipeline state. -/
def initState : PipelineState := { nextId := 0, items := [] }

/-- The pipeline state reached by a sequence of operations. -/
def runPipeline (evs : List PipelineEvent) : PipelineState :=
  evs.foldl stepPipeline initState

end ContentPipeline

namespace WebStudio

/-- The whitespace class of the JavaScript regular expression `\\s`. -/
def isJsWhitespace (c : Char) : Bool :=
  c == '\t' || c == '\n' || c == '\u000B' || c == '\u000C' || c == '\r' || c == ' ' ||
  c == '\u00A0' || c == '\u1680' || (0x2000 ≤ c.toNat && c.toNat ≤ 0x200A) ||
  c == '\u2028' || c == '\u2029' || c == '\u202F' || c == '\u205F' ||
  c == '\u3000' || c == '\uFEFF'

/-- Embedding of `.replace(/\\s+/g, '-')` as a left-to-right scan: the flag
records whether the scanner is inside a whitespace run, so each maximal run
of whitespace characters contributes exactly one hyphen. -/
def collapseScan (inRun : Bool) : List Char → List Char
  | [] => []
  | c :: cs =>
    if isJsWhitespace c then
      if inRun then collapseScan true cs else '-' :: collapseScan true cs
    else c :: collapseScan false cs

/-- The whole-string replacement starts outside any whitespace run. -/
def replaceWsRuns (l : List Char) : List Char := collapseScan false l

/-- The website-generation request, as validated by WebsiteRequestSchema in
the route handler. -/
structure WebsiteRequest where
  name : List Char
  type : String
  template : Option String
  description : List Char

/-- The record returned by generateWebsiteContent: the content-irrelevant
fields kept here are those the claims mention. -/
structure WebsiteContent where
  id : Nat
  domain : List Char
  template : String
  createdAt : Nat

/-- Embedding of `generateWebsiteContent` from the web-studio route handler:
`domain` is computed as `requestData.name.toLowerCase().replace(/\\s+/g, '-')`;
the fresh id (`Math.random`) and creation time (`Date`) come from the
environment and are passed explicitly. -/
def generateWebsiteContent (req : WebsiteRequest) (freshId : Nat) (now : Nat) :
    WebsiteContent :=
  { id := freshId
    domain := replaceWsRuns (req.name.map Char.toLower)
    template := req.template.getD "modern"
    createdAt := now }

end WebStudio

namespace Educational

/-- One lesson of a course, as in the EducationalPlatform component. -/
structure Lesson where
  id : String
  title : String
  type : String
  duration : Option Nat
  content : Option String
  isCompleted : Bool
  score : Option Int
deriving DecidableEq

/-- One course, as in the EducationalPlatform component. -/
structure Course where
  id : String
  title : String
  description : String
  category : String
  difficulty : String
  duration : Nat
  lessons : List Lesson
  progress : ℚ
  isCompleted : Bool
  tags : List String
deriving DecidableEq

/-- The score assigned to a completed lesson:
`Math.floor(Math.random() * 30) + 70`, with the `Math.random()` draw passed
explicitly. -/
def completeScore (rnd : ℚ) : Int := ⌊rnd * 30⌋ + 70

/-- The per-lesson update of handleLessonComplete: the targeted lesson is
marked completed and scored; other lessons are untouched. -/
def updateLessons (lessons : List Lesson) (lessonId : String) (rnd : ℚ) : List Lesson :=
  lessons.map fun lesson =>
    if lesson.id == lessonId then
      { lesson with isCompleted := true, score := some (completeScore rnd) }
    else lesson

/-- The progress recomputation of handleLessonComplete:
`(completedCount / updatedLessons.length) * 100`. -/
def courseProgress (lessons : List Lesson) : ℚ :=
  ((lessons.filter (fun l => l.isCompleted)).length : ℚ) / (lessons.length : ℚ) * 100

/-- Embedding of the `setCourses` updater of `handleLessonComplete` in the
EducationalPlatform component: the targeted course gets its targeted lesson
completed and scored, its progress recomputed and its completion flag set
exactly when progress is 100 (`progress === 100`); all other courses are
returned unchanged. -/
def handleLessonComplete (courses : List Course) (courseId lessonId : String) (rnd : ℚ) :
    List Course :=
  courses.map fun course =>
    if course.id == courseId then
      { course with
          lessons := updateLessons course.lessons lessonId rnd
          progress := courseProgress (updateLessons course.lessons lessonId rnd)
          isCompleted := decide (courseProgress (updateLessons course.lessons lessonId rnd) = 100) }
    else course

end Educational

namespace MotherUI

/-- One Child AI status record, as in the Mother-Child interface. -/
structure ChildAI where
  id : String
  name : String
  status : String
  confidence : ℚ
  contribution : ℚ

/-- The 3D orb visual state of the Mother-Child interface. -/
structure OrbState where
  breathing : Bool
  vibration : Bool
  pulsing : Bool
  contraction : ℚ
  color : String
  heartRate : Nat

/-- A partial decision update carried by a task_update message
(`Partial<MotherDecision>`): absent fields are `none`. -/
structure DecisionUpdate where
  status : Option String
  authority : Option String
  finalDecision : Option String
  reasoning : Option String

/-- A partial orb update carried by an orb_state message
(`Partial<MotherOrbState>`). -/
structure OrbStateUpdate where
  breathing : Option Bool
  vibration : Option Bool
  pulsing : Option Bool
  contraction : Option ℚ
  color : Option String
  heartRate : Option Nat

/-- JavaScript object-spread merge of a partial decision over the previous
one: present fields of the update win. -/
def mergeDecision (prev upd : DecisionUpdate) : DecisionUpdate :=
  { status := upd.status.or prev.status
    authority := upd.authority.or prev.authority
    finalDecision := upd.finalDecision.or prev.finalDecision
    reasoning := upd.reasoning.or prev.reasoning }

/-- JavaScript object-spread merge of a partial orb state over the previous
one. -/
def mergeOrbState (prev : OrbState) (upd : OrbStateUpdate) : OrbState :=
  { breathing := upd.breathing.getD prev.breathing
    vibration := upd.vibration.getD prev.vibration
    pulsing := upd.pulsing.getD prev.pulsing
    contraction := upd.contraction.getD prev.contraction
    color := upd.color.getD prev.color
    heartRate := upd.heartRate.getD prev.heartRate }

/-- Embedding of `updateOrbState`: the orb reacts to the decision status
(the `decided` arm also reads the decision authority). -/
def updateOrbState (prev : OrbState) (d : DecisionUpdate) : OrbState :=
  match d.status with
  | some "thinking" =>
    { prev with pulsing := true, vibration := false, color := "yellow", heartRate := 80 }
  | some "consensus" =>
    { prev with pulsing := true, vibration := true, color := "orange", heartRate := 100 }
  | some "decided" =>
    if d.authority == some "approved" then
      { prev with
          pulsing := false
          vibration := false
          color := "green"
          heartRate := 70
          contraction := 12 / 10 }
    else
      { prev with
          pulsing := false
          vibration := false
          color := "red"
          heartRate := 90
          contraction := 8 / 10 }
  | some "executing" =>
    { prev with pulsing := true, vibration := true, color := "blue", heartRate := 85 }
  | _ =>
    { prev with
        breathing := true
        pulsing := false
        vibration := false
        color := "blue"
        heartRate := 60
        contraction := 1 }

/-- An incoming WebSocket message, by its `type` tag; `other` stands for any
type with no matching switch case. -/
inductive MotherMsg where
  | childrenStatus (children : List ChildAI)
  | taskUpdate (decision : DecisionUpdate)
  | auditLog (log : String)
  | orbState (state : OrbStateUpdate)
  | other

/-- The component state of the Mother-Child interface that
handleMotherMessage touches. -/
structure MotherState where
  children : List ChildAI
  currentDecision : DecisionUpdate
  orbState : OrbState
  auditTrail : List String

/-- The initial component state (useState initialisers). -/
def initialMotherState : MotherState :=
  { children := []
    currentDecision := { status := none, authority := none, finalDecision := none,
                         reasoning := none }
    orbState := { breathing := true, vibration := false, pulsing := false,
                  contraction := 1, color := "blue", heartRate := 60 }
    auditTrail := [] }

/-- Embedding of `handleMotherMessage`: the audit_log arm prepends the new
log record and truncates to 50 entries
(`setAuditTrail(prev => [data.log, ...prev].slice(0, 50))`); the other arms
never touch the audit trail. -/
def handleMotherMessage (s : MotherState) (m : MotherMsg) : MotherState :=
  match m with
  | .childrenStatus cs => { s with children := cs }
  | .taskUpdate d =>
    { s with currentDecision := mergeDecision s.currentDecision d
             orbState := updateOrbState s.orbState d }
  | .auditLog log => { s with auditTrail := (log :: s.auditTrail).take 50 }
  | .orbState st => { s with orbState := mergeOrbState s.orbState st }
  | .other => s

end MotherUI

namespace ContentPipeline

lemma QualityScores.minScore_le_dim (s : QualityScores) (d : Dimension) :
    s.minScore ≤ s.dim d := by
  cases d <;> simp only [QualityScores.minScore, QualityScores.dim] <;>
    simp [min_le_iff, le_refl]

lemma QualityScores.minScore_eq_some_dim (s : QualityScores) :
    s.minScore = s.hook ∨ s.minScore = s.relevance ∨ s.minScore = s.readability ∨
      s.minScore = s.seo ∨ s.minScore = s.originality := by
  unfold QualityScores.minScore
  rcases min_choice s.hook (min s.relevance (min s.readability (min s.seo s.originality)))
    with h1 | h1
  · exact Or.inl h1
  rcases min_choice s.relevance (min s.readability (min s.seo s.originality)) with h2 | h2
  · exact Or.inr (Or.inl (h1.trans h2))
  rcases min_choice s.readability (min s.seo s.originality) with h3 | h3
  · exact Or.inr (Or.inr (Or.inl ((h1.trans h2).trans h3)))
  rcases min_choice s.seo s.originality with h4 | h4
  · exact Or.inr (Or.inr (Or.inr (Or.inl (((h1.trans h2).trans h3).trans h4))))
  · exact Or.inr (Or.inr (Or.inr (Or.inr (((h1.trans h2).trans h3).trans h4))))

lemma QualityScores.dim_worstDim (s : QualityScores) :
    s.dim s.worstDim = s.minScore := by
  unfold QualityScores.worstDim
  split
  case isTrue h => simpa [QualityScores.dim] using h
  case isFalse h1 =>
    split
    case isTrue h => simpa [QualityScores.dim] using h
    case isFalse h2 =>
      split
      case isTrue h => simpa [QualityScores.dim] using h
      case isFalse h3 =>
        split
        case isTrue h => simpa [QualityScores.dim] using h
        case isFalse h4 =>
          rcases s.minScore_eq_some_dim with h | h | h | h | h
          · exact absurd h.symm h1
          · exact absurd h.symm h2
          · exact absurd h.symm h3
          · exact absurd h.symm h4
          · simpa [QualityScores.dim] using h.symm

lemma QualityScores.floor_le_iff_all (s : QualityScores) :
    (defaultFloor ≤ s.minScore ↔ ∀ d, defaultFloor ≤ s.dim d) := by
  constructor
  · intro h d
    exact le_trans h (s.minScore_le_dim d)
  · intro h
    have h1 := h .hook
    have h2 := h .relevance
    have h3 := h .readability
    have h4 := h .seo
    have h5 := h .originality
    simp only [QualityScores.dim] at h1 h2 h3 h4 h5
    simp only [QualityScores.minScore, le_min_iff]
    exact ⟨h1, h2, h3, h4, h5⟩

/-- C1: the Validator accepts a draft exactly when the mean of the five
dimension scores is at least 0.7 and every individual dimension score is at
least 0.4; otherwise it rejects naming the worst-performing dimension.
Boundary behaviour: mean exactly 0.7 with all dimensions at least 0.4
accepts; mean 0.69 rejects; a score vector with one dimension at 0.39 (for
instance one of mean 0.9) rejects. -/
theorem validator_policy :
    (∀ s : QualityScores,
      (s.validate = .accepted ↔
        defaultThreshold ≤ s.aggregate ∧ ∀ d, defaultFloor ≤ s.dim d)) ∧
    (∀ s : QualityScores, ∀ d, s.validate = .rejected d →
      d = s.worstDim ∧ s.dim d = s.minScore) ∧
    (QualityScores.validate ⟨7/10, 7/10, 7/10, 7/10, 7/10⟩ = .accepted) ∧
    (∀ s : QualityScores, s.aggregate = 69/100 → s.validate = .rejected s.worstDim) ∧
    (∀ s : QualityScores, s.minScore = 39/100 → s.validate = .rejected s.worstDim) := by
  refine ⟨?_, ?_, ?_, ?_, ?_⟩
  · intro s
    rw [← s.floor_le_iff_all]
    unfold QualityScores.validate
    split
    case isTrue h => simpa using h
    case isFalse h => simpa using h
  · intro s d hrej
    unfold QualityScores.validate at hrej
    split at hrej
    case isTrue => exact absurd hrej (by simp)
    case isFalse =>
      have hd : d = s.worstDim := by
        injection hrej with h
        exact h.symm
      exact ⟨hd, hd ▸ s.dim_worstDim⟩
  · unfold QualityScores.validate
    rw [if_pos]
    constructor
    · show defaultThreshold ≤ QualityScores.aggregate ⟨7/10, 7/10, 7/10, 7/10, 7/10⟩
      unfold defaultThreshold QualityScores.aggregate
      norm_num
    · show defaultFloor ≤ QualityScores.minScore ⟨7/10, 7/10, 7/10, 7/10, 7/10⟩
      unfold defaultFloor QualityScores.minScore
      norm_num
  · intro s hagg
    unfold QualityScores.validate
    rw [if_neg]
    intro hacc
    rw [hagg] at hacc
    have := hacc.1
    unfold defaultThreshold at this
    norm_num at this
  · intro s hmin
    unfold QualityScores.validate
    rw [if_neg]
    intro hacc
    rw [hmin] at hacc
    have := hacc.2
    unfold defaultFloor at this
    norm_num at this

/-- Concrete instantiation of the Validator policy theorem: the all-0.69
score vector has mean 0.69 and is rejected naming its worst dimension. -/
theorem validator_policy_witness :
    QualityScores.aggregate ⟨69/100, 69/100, 69/100, 69/100, 69/100⟩ = 69/100 ∧
    QualityScores.validate ⟨69/100, 69/100, 69/100, 69/100, 69/100⟩ =
      .rejected (QualityScores.worstDim ⟨69/100, 69/100, 69/100, 69/100, 69/100⟩) := by
  have hagg : QualityScores.aggregate ⟨69/100, 69/100, 69/100, 69/100, 69/100⟩ = 69/100 := by
    unfold QualityScores.aggregate
    norm_num
  exact ⟨hagg, validator_policy.2.2.2.1 ⟨69/100, 69/100, 69/100, 69/100, 69/100⟩ hagg⟩

@[simp] lemma appendAudit_stage (it : ContentItem) (st : Stage) (r : Option FailReason) :
    (appendAudit it st r).stage = st := rfl

@[simp] lemma appendAudit_auditLog (it : ContentItem) (st : Stage) (r : Option FailReason) :
    (appendAudit it st r).auditLog =
      it.auditLog ++ [{ stage := st, timestamp := it.auditLog.length, reason := r }] := rfl

lemma replay_append (log : List AuditRecord) (a : AuditRecord) :
    replay (log ++ [a]) = some a.stage := by
  simp [replay, List.foldl_append]

lemma goodAudit_appendAudit (it it2 : ContentItem) (st : Stage) (r : Option FailReason)
    (hlog : it2.auditLog = it.auditLog)
    (h : GoodAudit it) (hlt : it.stage.idx < st.idx) :
    GoodAudit (appendAudit it2 st r) := by
  obtain ⟨hts, hrp, hpw, hbound⟩ := h
  unfold GoodAudit appendAudit
  simp only [hlog]
  refine ⟨?_, ?_, ?_, ?_⟩
  · simp only [List.map_append, List.length_append, List.map_cons, List.map_nil,
      List.length_cons, List.length_nil]
    rw [hts]
    simp [List.range_succ]
  · exact replay_append _ _
  · rw [List.map_append]
    rw [List.pairwise_append]
    refine ⟨hpw, by simp, ?_⟩
    intro x hx y hy
    simp only [List.map_cons, List.map_nil, List.mem_singleton] at hy
    subst hy
    rcases List.mem_map.mp hx with ⟨a, ha, rfl⟩
    exact lt_of_le_of_lt (hbound a ha) hlt
  · intro a ha
    rcases List.mem_append.mp ha with ha | ha
    · exact le_of_lt (lt_of_le_of_lt (hbound a ha) hlt)
    · simp only [List.mem_singleton] at ha
      subst ha
      exact le_refl _

lemma goodAudit_stepItem (it : ContentItem) (e : PipeEvent) (h : GoodAudit it) :
    GoodAudit (stepItem it e) := by
  cases e with
  | transcribeDone res =>
    simp only [stepItem]
    split
    case isTrue hst =>
      cases res with
      | some segs =>
        exact goodAudit_appendAudit it _ _ _ rfl h (by rw [hst]; decide)
      | none =>
        exact goodAudit_appendAudit it _ _ _ rfl h (by rw [hst]; decide)
    case isFalse => exact h
  | generateDone res =>
    simp only [stepItem]
    split
    case isTrue hst =>
      split
      · exact goodAudit_appendAudit it _ _ _ rfl h (by rw [hst]; decide)
      · exact goodAudit_appendAudit it _ _ _ rfl h (by rw [hst]; decide)
    case isFalse => exact h
  | validateDone scores =>
    simp only [stepItem]
    split
    case isTrue hst =>
      split
      · exact goodAudit_appendAudit it _ _ _ rfl h (by rw [hst]; decide)
      · exact h
    case isFalse => exact h
  | renderDone res =>
    simp only [stepItem]
    split
    case isTrue hst =>
      exact goodAudit_appendAudit it _ _ _ rfl h (by rw [hst]; decide)
    case isFalse => exact h
  | publishDone res =>
    simp only [stepItem]
    split
    case isTrue hst =>
      split
      · exact goodAudit_appendAudit it _ _ _ rfl h (by rw [hst]; decide)
      · exact goodAudit_appendAudit it _ _ _ rfl h (by rw [hst]; decide)
    case isFalse => exact h

lemma goodAudit_mkItem (id fp : Nat) (src : String) : GoodAudit (mkItem id fp src) := by
  unfold GoodAudit mkItem replay
  refine ⟨by simp [List.range_succ], by simp, by simp, by simp⟩

lemma goodAudit_foldl (it : ContentItem) (evs : List PipeEvent) (h : GoodAudit it) :
    GoodAudit (evs.foldl stepItem it) := by
  induction evs generalizing it with
  | nil => exact h
  | cons e tl ih => exact ih _ (goodAudit_stepItem it e h)

lemma goodAudit_runItem (id fp : Nat) (src : String) (evs : List PipeEvent) :
    GoodAudit (runItem id fp src evs) :=
  goodAudit_foldl _ _ (goodAudit_mkItem id fp src)

lemma stepItem_log_append (it : ContentItem) (e : PipeEvent) :
    (stepItem it e).auditLog = it.auditLog ∨
      ∃ a, (stepItem it e).auditLog = it.auditLog ++ [a] := by
  cases e with
  | transcribeDone res =>
    simp only [stepItem]
    split
    · cases res <;> exact Or.inr ⟨_, rfl⟩
    · exact Or.inl rfl
  | generateDone res =>
    simp only [stepItem]
    split
    · split
      · exact Or.inr ⟨_, rfl⟩
      · exact Or.inr ⟨_, rfl⟩
    · exact Or.inl rfl
  | validateDone scores =>
    simp only [stepItem]
    split
    · split
      · exact Or.inr ⟨_, rfl⟩
      · exact Or.inl rfl
    · exact Or.inl rfl
  | renderDone res =>
    simp only [stepItem]
    split
    · exact Or.inr ⟨_, rfl⟩
    · exact Or.inl rfl
  | publishDone res =>
    simp only [stepItem]
    split
    · split
      · exact Or.inr ⟨_, rfl⟩
      · exact Or.inr ⟨_, rfl⟩
    · exact Or.inl rfl

lemma stepItem_stage_or_append (it : ContentItem) (e : PipeEvent) :
    (stepItem it e).stage = it.stage ∨
      ∃ a, (stepItem it e).auditLog = it.auditLog ++ [a] ∧
        a.stage = (stepItem it e).stage ∧ a.timestamp = it.auditLog.length := by
  cases e with
  | transcribeDone res =>
    simp only [stepItem]
    split
    · cases res <;> exact Or.inr ⟨_, rfl, rfl, rfl⟩
    · exact Or.inl rfl
  | generateDone res =>
    simp only [stepItem]
    split
    · split
      · exact Or.inr ⟨_, rfl, rfl, rfl⟩
      · exact Or.inr ⟨_, rfl, rfl, rfl⟩
    · exact Or.inl rfl
  | validateDone scores =>
    simp only [stepItem]
    split
    · split
      · exact Or.inr ⟨_, rfl, rfl, rfl⟩
      · exact Or.inl rfl
    · exact Or.inl rfl
  | renderDone res =>
    simp only [stepItem]
    split
    · exact Or.inr ⟨_, rfl, rfl, rfl⟩
    · exact Or.inl rfl
  | publishDone res =>
    simp only [stepItem]
    split
    · split
      · exact Or.inr ⟨_, rfl, rfl, rfl⟩
      · exact Or.inr ⟨_, rfl, rfl, rfl⟩
    · exact Or.inl rfl

lemma stepItem_transition (it : ContentItem) (e : PipeEvent)
    (h : (stepItem it e).stage ≠ it.stage) :
    ∃ a, (stepItem it e).auditLog = it.auditLog ++ [a] ∧
      a.stage = (stepItem it e).stage ∧ a.timestamp = it.auditLog.length := by
  rcases stepItem_stage_or_append it e with heq | hex
  · exact absurd heq h
  · exact hex

theorem audit_log_append_only :
    (∀ (it : ContentItem) (e : PipeEvent),
      (stepItem it e).auditLog = it.auditLog ∨
        ∃ a, (stepItem it e).auditLog = it.auditLog ++ [a]) ∧
    (∀ (it : ContentItem) (e : PipeEvent), (stepItem it e).stage ≠ it.stage →
      ∃ a, (stepItem it e).auditLog = it.auditLog ++ [a] ∧
        a.stage = (stepItem it e).stage ∧ a.timestamp = it.auditLog.length) ∧
    (∀ (id fp : Nat) (src : String) (evs : List PipeEvent),
      ((runItem id fp src evs).auditLog.map AuditRecord.timestamp).Pairwise (· < ·)) ∧
    (∀ (id fp : Nat) (src : String) (evs : List PipeEvent),
      replay (runItem id fp src evs).auditLog = some (runItem id fp src evs).stage) := by
  refine ⟨stepItem_log_append, stepItem_transition, ?_, ?_⟩
  · intro id fp src evs
    have h := (goodAudit_runItem id fp src evs).1
    rw [h]
    exact List.pairwise_lt_range _
  · intro id fp src evs
    exact (goodAudit_runItem id fp src evs).2.1

/-- Concrete instantiation of the audit-log theorem: an exhausted
transcription on a fresh item changes the stage and appends exactly one
record at the next logical timestamp. -/
theorem audit_log_append_only_witness :
    (stepItem (mkItem 0 0 "a") (.transcribeDone none)).stage ≠ (mkItem 0 0 "a").stage ∧
    ∃ a, (stepItem (mkItem 0 0 "a") (.transcribeDone none)).auditLog =
        (mkItem 0 0 "a").auditLog ++ [a] ∧
      a.stage = (stepItem (mkItem 0 0 "a") (.transcribeDone none)).stage ∧
      a.timestamp = (mkItem 0 0 "a").auditLog.length :=
  ⟨by decide, audit_log_append_only.2.1 (mkItem 0 0 "a") (.transcribeDone none) (by decide)⟩

lemma stepItem_terminal (it : ContentItem) (e : PipeEvent)
    (h : it.stage.terminal = true) : stepItem it e = it := by
  cases e with
  | transcribeDone res =>
    simp only [stepItem]
    split
    case isTrue hst => rw [hst] at h; exact absurd h (by decide)
    case isFalse => rfl
  | generateDone res =>
    simp only [stepItem]
    split
    case isTrue hst => rw [hst] at h; exact absurd h (by decide)
    case isFalse => rfl
  | validateDone scores =>
    simp only [stepItem]
    split
    case isTrue hst => rw [hst] at h; exact absurd h (by decide)
    case isFalse => rfl
  | renderDone res =>
    simp only [stepItem]
    split
    case isTrue hst => rw [hst] at h; exact absurd h (by decide)
    case isFalse => rfl
  | publishDone res =>
    simp only [stepItem]
    split
    case isTrue hst => rw [hst] at h; exact absurd h (by decide)
    case isFalse => rfl

lemma stepItem_forward (it : ContentItem) (e : PipeEvent) :
    (stepItem it e).stage = it.stage ∨
      (Stage.idx it.stage < Stage.idx (stepItem it e).stage ∧
        ((stepItem it e).stage = Stage.next it.stage ∨ (stepItem it e).stage = .failed)) := by
  cases e with
  | transcribeDone res =>
    simp only [stepItem]
    split
    case isTrue hst =>
      cases res with
      | none => exact Or.inr ⟨by simp only [appendAudit_stage, hst]; decide, Or.inr (by simp only [appendAudit_stage])⟩
      | some segs => exact Or.inr ⟨by simp only [appendAudit_stage, hst]; decide, Or.inl (by simp only [appendAudit_stage, hst]; decide)⟩
    case isFalse => exact Or.inl rfl
  | generateDone res =>
    simp only [stepItem]
    split
    case isTrue hst =>
      split
      · exact Or.inr ⟨by simp only [appendAudit_stage, hst]; decide, Or.inr (by simp only [appendAudit_stage])⟩
      · exact Or.inr ⟨by simp only [appendAudit_stage, hst]; decide, Or.inl (by simp only [appendAudit_stage, hst]; decide)⟩
    case isFalse => exact Or.inl rfl
  | validateDone scores =>
    simp only [stepItem]
    split
    case isTrue hst =>
      split
      · exact Or.inr ⟨by simp only [appendAudit_stage, hst]; decide, Or.inl (by simp only [appendAudit_stage, hst]; decide)⟩
      · exact Or.inl rfl
    case isFalse => exact Or.inl rfl
  | renderDone res =>
    simp only [stepItem]
    split
    case isTrue hst =>
      exact Or.inr ⟨by simp only [appendAudit_stage, hst]; decide, Or.inl (by simp only [appendAudit_stage, hst]; decide)⟩
    case isFalse => exact Or.inl rfl
  | publishDone res =>
    simp only [stepItem]
    split
    case isTrue hst =>
      split
      · exact Or.inr ⟨by simp only [appendAudit_stage, hst]; decide, Or.inl (by simp only [appendAudit_stage, hst]; decide)⟩
      · exact Or.inr ⟨by simp only [appendAudit_stage, hst]; decide, Or.inr (by simp only [appendAudit_stage])⟩
    case isFalse => exact Or.inl rfl

lemma lookup_map_value {β γ : Type} (f : β → γ) (l : List (Platform × β)) (p : Platform) :
    List.lookup p (l.map (fun x => (x.1, f x.2))) = (List.lookup p l).map f := by
  induction l with
  | nil => rfl
  | cons x tl ih =>
    obtain ⟨k, v⟩ := x
    cases hpk : (p == k) with
    | true => simp [List.lookup, hpk]
    | false => simp [List.lookup, hpk, ih]

lemma lookup_of_mem_nodup {β : Type} (l : List (Platform × β)) (p : Platform) (b : β)
    (hnd : (l.map Prod.fst).Nodup) (hmem : (p, b) ∈ l) :
    List.lookup p l = some b := by
  induction l with
  | nil => cases hmem
  | cons x tl ih =>
    obtain ⟨k, v⟩ := x
    rcases List.mem_cons.mp hmem with heq | htl
    · injection heq with h1 h2
      subst h1
      subst h2
      simp [List.lookup]
    · rw [List.map_cons] at hnd
      obtain ⟨hhead, htail⟩ := List.nodup_cons.mp hnd
      have hk : p ≠ k := by
        intro hpk
        have hmf : p ∈ tl.map Prod.fst := List.mem_map_of_mem Prod.fst htl
        rw [hpk] at hmf
        exact hhead hmf
      have hbeq : (p == k) = false := beq_eq_false_iff_ne.mpr hk
      simp only [List.lookup, hbeq]
      exact ih htail htl

lemma stepItem_publish (it : ContentItem) (res : List (Platform × Bool))
    (hst : it.stage = .rendered) :
    stepItem it (.publishDone res) =
      if res.any (fun pb => pb.2) then
        appendAudit
          { it with publicationResults := res.map (fun pb => (pb.1, mkPublication pb.2)) }
          .published none
      else
        appendAudit
          { it with publicationResults := res.map (fun pb => (pb.1, mkPublication pb.2)) }
          .failed (some .publishFailedAll) := by
  simp only [stepItem]
  rw [if_pos hst]

/-- C3: once all publish dispatches for an item have resolved, the item is
Published when at least one platform succeeded and Failed with reason
PublishFailedAll when every platform exhausted its retries; each platform's
stored publication result is determined by that platform's own dispatch
outcome, so one platform's failure never changes another's stored success. -/
theorem publish_resolution :
    ∀ (it : ContentItem) (res : List (Platform × Bool)),
      it.stage = .rendered → (res.map Prod.fst).Nodup →
      ((res.any (fun pb => pb.2) = true → (stepItem it (.publishDone res)).stage = .published) ∧
       (res.any (fun pb => pb.2) = false →
         (stepItem it (.publishDone res)).stage = .failed ∧
         ∃ a, (stepItem it (.publishDone res)).auditLog = it.auditLog ++ [a] ∧
           a.reason = some .publishFailedAll) ∧
       (∀ p, (p, true) ∈ res →
         List.lookup p (stepItem it (.publishDone res)).publicationResults =
           some (mkPublication true) ∧ (mkPublication true).status = .succeeded) ∧
       (∀ p, (p, false) ∈ res →
         List.lookup p (stepItem it (.publishDone res)).publicationResults =
           some (mkPublication false) ∧ (mkPublication false).status = .failed)) := by
  intro it res hst hnd
  rw [stepItem_publish it res hst]
  have hlook : ∀ (b : Bool) (p : Platform), (p, b) ∈ res →
      List.lookup p (res.map (fun pb => (pb.1, mkPublication pb.2))) =
        some (mkPublication b) := by
    intro b p hmem
    rw [lookup_map_value]
    rw [lookup_of_mem_nodup res p b hnd hmem]
    rfl
  refine ⟨?_, ?_, ?_, ?_⟩
  · intro hany
    rw [if_pos hany]
    rfl
  · intro hany
    rw [if_neg (by simp [hany])]
    exact ⟨rfl, _, rfl, rfl⟩
  · intro p hmem
    constructor
    · split <;> simpa using hlook true p hmem
    · rfl
  · intro p hmem
    constructor
    · split <;> simpa using hlook false p hmem
    · rfl

/-- Concrete instantiation of the publish-resolution theorem: platform 0
failing and platform 1 succeeding yields stage Published with a failed
stored result for platform 0 and a succeeded one for platform 1. -/
theorem publish_resolution_witness :
    (ContentItem.mk 7 0 "a" none [] [] .rendered []).stage = .rendered ∧
    ([(0, false), (1, true)].map (Prod.fst (β := Bool))).Nodup ∧
    (stepItem (ContentItem.mk 7 0 "a" none [] [] .rendered [])
        (.publishDone [(0, false), (1, true)])).stage = .published ∧
    List.lookup 1 (stepItem (ContentItem.mk 7 0 "a" none [] [] .rendered [])
        (.publishDone [(0, false), (1, true)])).publicationResults =
      some (mkPublication true) ∧
    List.lookup 0 (stepItem (ContentItem.mk 7 0 "a" none [] [] .rendered [])
        (.publishDone [(0, false), (1, true)])).publicationResults =
      some (mkPublication false) := by
  have h := publish_resolution (ContentItem.mk 7 0 "a" none [] [] .rendered [])
    [(0, false), (1, true)] rfl (by decide)
  exact ⟨rfl, by decide, h.1 (by decide), (h.2.2.1 1 (by decide)).1, (h.2.2.2 0 (by decide)).1⟩

lemma stepItem_generate (it : ContentItem) (res : List (Platform × Option GenContent))
    (hst : it.stage = .transcribed) :
    stepItem it (.generateDone res) =
      if (res.filterMap (fun pr => pr.2.map (fun c => (pr.1, mkDraft pr.1 c)))).isEmpty then
        appendAudit it .failed (some .generationFailedAll)
      else
        appendAudit
          { it with drafts := res.filterMap (fun pr => pr.2.map (fun c => (pr.1, mkDraft pr.1 c))) }
          .generated none := by
  simp only [stepItem]
  rw [if_pos hst]

lemma filterMap_platforms (res : List (Platform × Option GenContent)) :
    (res.filterMap (fun pr => pr.2.map (fun c => (pr.1, mkDraft pr.1 c)))).map Prod.fst =
      res.filterMap (fun pr => pr.2.map (fun _ => pr.1)) := by
  induction res with
  | nil => rfl
  | cons x tl ih =>
    obtain ⟨k, o⟩ := x
    cases o with
    | none => simpa [List.filterMap_cons] using ih
    | some c => simpa [List.filterMap_cons] using ih

lemma lookup_filterMap_drafts (res : List (Platform × Option GenContent)) (p : Platform)
    (c : GenContent) (hnd : (res.map Prod.fst).Nodup) (hmem : (p, some c) ∈ res) :
    List.lookup p (res.filterMap (fun pr => pr.2.map (fun c => (pr.1, mkDraft pr.1 c)))) =
      some (mkDraft p c) := by
  induction res with
  | nil => cases hmem
  | cons x tl ih =>
    obtain ⟨k, o⟩ := x
    rcases List.mem_cons.mp hmem with heq | htl
    · injection heq with h1 h2
      subst h1
      subst h2
      simp [List.filterMap_cons, List.lookup]
    · rw [List.map_cons] at hnd
      obtain ⟨hhead, hta⟩ := List.nodup_cons.mp hnd
      have hk : p ≠ k := by
        intro hpk
        have hmf : p ∈ tl.map Prod.fst := List.mem_map_of_mem Prod.fst htl
        rw [hpk] at hmf
        exact hhead hmf
      have hbeq : (p == k) = false := beq_eq_false_iff_ne.mpr hk
      have htail := ih hta htl
      cases o with
      | none => simpa [List.filterMap_cons] using htail
      | some c2 =>
        simp only [List.filterMap_cons, Option.map_some]
        simp only [List.lookup, hbeq]
        exact htail

/-- C7: from stage Transcribed, when every platform generation fails the
item moves to Failed with reason GenerationFailedAll; when a non-empty
subset of platforms succeeds the item moves to Generated with exactly the
succeeded platforms as draft keys, each draft pending, and the draft of a
succeeded platform is exactly the one built from that platform's generated
content — failed platforms get no draft at all. -/
theorem generator_drafts :
    ∀ (it : ContentItem) (res : List (Platform × Option GenContent)),
      it.stage = .transcribed →
      ((res.filterMap (fun pr => pr.2.map (fun _ => pr.1)) = [] →
        (stepItem it (.generateDone res)).stage = .failed ∧
        ∃ a, (stepItem it (.generateDone res)).auditLog = it.auditLog ++ [a] ∧
          a.reason = some .generationFailedAll) ∧
      (res.filterMap (fun pr => pr.2.map (fun _ => pr.1)) ≠ [] →
        (stepItem it (.generateDone res)).stage = .generated ∧
        (stepItem it (.generateDone res)).drafts.map Prod.fst =
          res.filterMap (fun pr => pr.2.map (fun _ => pr.1)) ∧
        (∀ pd ∈ (stepItem it (.generateDone res)).drafts,
          pd.2.validationOutcome = .pending)) ∧
      ((res.map Prod.fst).Nodup → ∀ p c, (p, some c) ∈ res →
        List.lookup p (stepItem it (.generateDone res)).drafts = some (mkDraft p c))) := by
  intro it res hst
  rw [stepItem_generate it res hst]
  have hplat := filterMap_platforms res
  refine ⟨?_, ?_, ?_⟩
  · intro hempty
    have hempty2 : (res.filterMap
        (fun pr => pr.2.map (fun c => (pr.1, mkDraft pr.1 c)))).isEmpty = true := by
      rw [List.isEmpty_iff]
      have : (res.filterMap
          (fun pr => pr.2.map (fun c => (pr.1, mkDraft pr.1 c)))).map Prod.fst = [] := by
        rw [hplat, hempty]
      exact List.map_eq_nil_iff.mp this
    rw [if_pos hempty2]
    exact ⟨rfl, _, rfl, rfl⟩
  · intro hne
    have hne2 : ¬((res.filterMap
        (fun pr => pr.2.map (fun c => (pr.1, mkDraft pr.1 c)))).isEmpty = true) := by
      rw [List.isEmpty_iff]
      intro hnil
      exact hne (by rw [← hplat, hnil]; rfl)
    rw [if_neg hne2]
    refine ⟨rfl, hplat, ?_⟩
    intro pd hpd
    rcases List.mem_filterMap.mp hpd with ⟨pr, _, hmap⟩
    rcases Option.map_eq_some'.mp hmap with ⟨c, _, hc⟩
    rw [← hc]
    rfl
  · intro hnd p c hmem
    have hlook := lookup_filterMap_drafts res p c hnd hmem
    have hmemfm : (p, mkDraft p c) ∈
        res.filterMap (fun pr => pr.2.map (fun c => (pr.1, mkDraft pr.1 c))) :=
      List.mem_filterMap.mpr ⟨(p, some c), hmem, rfl⟩
    split
    case isTrue hempty =>
      exfalso
      rw [List.isEmpty_iff] at hempty
      rw [hempty] at hmemfm
      cases hmemfm
    case isFalse => simpa using hlook

/-- Concrete instantiation of the generator theorem: platform 0 succeeding
and platform 1 failing yields stage Generated with a single pending draft
for platform 0 only. -/
theorem generator_drafts_witness :
    (ContentItem.mk 3 0 "a" none [] [] .transcribed []).stage = .transcribed ∧
    (stepItem (ContentItem.mk 3 0 "a" none [] [] .transcribed [])
      (.generateDone [(0, some (GenContent.mk "t" "b" [])), (1, none)])).stage = .generated ∧
    (stepItem (ContentItem.mk 3 0 "a" none [] [] .transcribed [])
      (.generateDone [(0, some (GenContent.mk "t" "b" [])), (1, none)])).drafts.map Prod.fst =
        [0] := by
  have h := generator_drafts (ContentItem.mk 3 0 "a" none [] [] .transcribed [])
    [(0, some (GenContent.mk "t" "b" [])), (1, none)] rfl
  have hne := h.2.1 (by decide)
  exact ⟨rfl, hne.1, by rw [hne.2.1]; decide⟩

/-- C5: every Orchestrator transition moves strictly forward along the stage
chain or to the terminal failure stage, no event changes an item in a
terminal stage, and along the auditLog of any reachable item the stage
indices are strictly increasing, so no stage is ever re-entered. -/
theorem stage_forward_only :
    (∀ (it : ContentItem) (e : PipeEvent), it.stage.terminal = true → stepItem it e = it) ∧
    (∀ (it : ContentItem) (e : PipeEvent),
      (stepItem it e).stage = it.stage ∨
        (Stage.idx it.stage < Stage.idx (stepItem it e).stage ∧
          ((stepItem it e).stage = Stage.next it.stage ∨ (stepItem it e).stage = .failed))) ∧
    (∀ (id fp : Nat) (src : String) (evs : List PipeEvent),
      ((runItem id fp src evs).auditLog.map (fun a => Stage.idx a.stage)).Pairwise (· < ·)) :=
  ⟨stepItem_terminal, stepItem_forward,
    fun id fp src evs => (goodAudit_runItem id fp src evs).2.2.1⟩

/-- Concrete instantiation of the forward-only theorem: a published item is
terminal and is left unchanged by a further event. -/
theorem stage_forward_only_witness :
    Stage.terminal (ContentItem.mk 0 0 "a" none [] [] .published []).stage = true ∧
    stepItem (ContentItem.mk 0 0 "a" none [] [] .published []) (.transcribeDone none) =
      ContentItem.mk 0 0 "a" none [] [] .published [] :=
  ⟨rfl, stage_forward_only.1 _ _ rfl⟩

lemma stepItem_id (it : ContentItem) (e : PipeEvent) : (stepItem it e).id = it.id := by
  cases e with
  | transcribeDone res =>
    simp only [stepItem]
    split
    · cases res <;> rfl
    · rfl
  | generateDone res =>
    simp only [stepItem]
    split
    · split <;> rfl
    · rfl
  | validateDone scores =>
    simp only [stepItem]
    split
    · split <;> rfl
    · rfl
  | renderDone res =>
    simp only [stepItem]
    split <;> rfl
  | publishDone res =>
    simp only [stepItem]
    split
    · split <;> rfl
    · rfl

lemma stepItem_fingerprint (it : ContentItem) (e : PipeEvent) :
    (stepItem it e).fingerprint = it.fingerprint := by
  cases e with
  | transcribeDone res =>
    simp only [stepItem]
    split
    · cases res <;> rfl
    · rfl
  | generateDone res =>
    simp only [stepItem]
    split
    · split <;> rfl
    · rfl
  | validateDone scores =>
    simp only [stepItem]
    split
    · split <;> rfl
    · rfl
  | renderDone res =>
    simp only [stepItem]
    split <;> rfl
  | publishDone res =>
    simp only [stepItem]
    split
    · split <;> rfl
    · rfl

lemma stepPipeline_item_fps (s : PipelineState) (id : Nat) (e : PipeEvent) :
    (stepPipeline s (.itemEvent id e)).items.map ContentItem.fingerprint =
      s.items.map ContentItem.fingerprint := by
  simp only [stepPipeline, List.map_map]
  refine List.map_congr_left ?_
  intro it _
  simp only [Function.comp]
  split
  · exact stepItem_fingerprint it e
  · rfl

lemma nodup_fps_step (s : PipelineState) (ev : PipelineEvent)
    (h : (s.items.map ContentItem.fingerprint).Nodup) :
    ((stepPipeline s ev).items.map ContentItem.fingerprint).Nodup := by
  cases ev with
  | itemEvent id e => rw [stepPipeline_item_fps]; exact h
  | ingestFile src bytes =>
    simp only [stepPipeline, ingest]
    cases hfind : s.items.find? (fun it => it.fingerprint == fingerprintOf bytes) with
    | some orig => exact h
    | none =>
      have hnotin : fingerprintOf bytes ∉ s.items.map ContentItem.fingerprint := by
        intro hmem
        rcases List.mem_map.mp hmem with ⟨it, hit, hfp⟩
        have := List.find?_eq_none.mp hfind it hit
        simp [hfp] at this
      simp only [List.map_append]
      rw [List.nodup_append]
      refine ⟨h, by simp, ?_⟩
      intro a ha hb
      simp only [List.map_cons, List.map_nil, List.mem_singleton] at hb
      subst hb
      exact hnotin ha

lemma nodup_fps_foldl (s : PipelineState) (evs : List PipelineEvent)
    (h : (s.items.map ContentItem.fingerprint).Nodup) :
    ((evs.foldl stepPipeline s).items.map ContentItem.fingerprint).Nodup := by
  induction evs generalizing s with
  | nil => exact h
  | cons ev tl ih => exact ih _ (nodup_fps_step s ev h)

lemma nodup_fps_run (evs : List PipelineEvent) :
    ((runPipeline evs).items.map ContentItem.fingerprint).Nodup :=
  nodup_fps_foldl initState evs (by simp [initState])

lemma item_preserved_step (s : PipelineState) (ev : PipelineEvent) (i fp : Nat)
    (h : ∃ it ∈ s.items, it.id = i ∧ it.fingerprint = fp) :
    ∃ it ∈ (stepPipeline s ev).items, it.id = i ∧ it.fingerprint = fp := by
  rcases h with ⟨it, hit, hid, hfp⟩
  cases ev with
  | ingestFile src bytes =>
    simp only [stepPipeline, ingest]
    cases hfind : s.items.find? (fun x => x.fingerprint == fingerprintOf bytes) with
    | some orig => exact ⟨it, hit, hid, hfp⟩
    | none => exact ⟨it, List.mem_append_left _ hit, hid, hfp⟩
  | itemEvent j e =>
    simp only [stepPipeline]
    refine ⟨if it.id == j then stepItem it e else it, List.mem_map_of_mem _ hit, ?_, ?_⟩
    · split
      · rw [stepItem_id, hid]
      · exact hid
    · split
      · rw [stepItem_fingerprint, hfp]
      · exact hfp

lemma item_preserved_foldl (s : PipelineState) (evs : List PipelineEvent) (i fp : Nat)
    (h : ∃ it ∈ s.items, it.id = i ∧ it.fingerprint = fp) :
    ∃ it ∈ (evs.foldl stepPipeline s).items, it.id = i ∧ it.fingerprint = fp := by
  induction evs generalizing s with
  | nil => exact h
  | cons ev tl ih => exact ih _ (item_preserved_step s ev i fp h)

lemma ingest_fresh (s : PipelineState) (src : String) (bytes : List Nat)
    (h : ∀ it ∈ s.items, it.fingerprint ≠ fingerprintOf bytes) :
    (ingest s src bytes).1.items =
      s.items ++ [mkItem s.nextId (fingerprintOf bytes) src] ∧
    (ingest s src bytes).2 = .created s.nextId := by
  have hfind : s.items.find? (fun it => it.fingerprint == fingerprintOf bytes) = none := by
    rw [List.find?_eq_none]
    intro it hit
    simp [h it hit]
  simp only [ingest, hfind]
  constructor <;> trivial

lemma ingest_duplicate (s : PipelineState) (src : String) (bytes : List Nat)
    (it : ContentItem) (hnd : (s.items.map ContentItem.fingerprint).Nodup)
    (hit : it ∈ s.items) (hfp : it.fingerprint = fingerprintOf bytes) :
    ingest s src bytes = (s, .duplicateContent it.id) := by
  cases hfind : s.items.find? (fun x => x.fingerprint == fingerprintOf bytes) with
  | none =>
    have := List.find?_eq_none.mp hfind it hit
    simp [hfp] at this
  | some w =>
    have hw1 : w.fingerprint = fingerprintOf bytes := by
      have := List.find?_some hfind
      simpa using this
    have hw2 : w ∈ s.items := List.mem_of_find?_eq_some hfind
    have hwe : w = it :=
      List.inj_on_of_nodup_map hnd hw2 hit (by rw [hw1, hfp])
    simp only [ingest, hfind, hwe]

lemma length_filter_fp_one (l : List ContentItem) (v : Nat)
    (hnd : (l.map ContentItem.fingerprint).Nodup) (x : ContentItem) (hx : x ∈ l)
    (hfx : x.fingerprint = v) :
    (l.filter (fun y => y.fingerprint == v)).length = 1 := by
  induction l with
  | nil => cases hx
  | cons a tl ih =>
    rw [List.map_cons] at hnd
    obtain ⟨hhead, htl⟩ := List.nodup_cons.mp hnd
    by_cases hav : a.fingerprint = v
    · have hfilter : tl.filter (fun y => y.fingerprint == v) = [] := by
        rw [List.filter_eq_nil_iff]
        intro y hy hyv
        apply hhead
        rw [hav]
        have : y.fingerprint = v := by simpa using hyv
        rw [← this]
        exact List.mem_map_of_mem ContentItem.fingerprint hy
      simp [List.filter_cons, hav, hfilter]
    · have hxtl : x ∈ tl := by
        rcases List.mem_cons.mp hx with rfl | htlmem
        · exact absurd hfx hav
        · exact htlmem
      have : (a.fingerprint == v) = false := by
        simp [hav]
      simp only [List.filter_cons, this, Bool.false_eq_true, if_false]
      exact ih htl hxtl

/-- C2: ingesting content whose fingerprint is not yet registered creates
exactly one ContentItem; from then on, in every reachable later state that
content's fingerprint belongs to exactly one item, every further ingestion
of the same bytes returns DuplicateContent referencing the first item's id
and creates nothing, and in every reachable state the fingerprints of the
(never-deleted) items are pairwise distinct. -/
theorem ingest_dedup :
    (∀ evs : List PipelineEvent,
      ((runPipeline evs).items.map ContentItem.fingerprint).Nodup) ∧
    (∀ (s : PipelineState) (src : String) (bytes : List Nat),
      (∀ it ∈ s.items, it.fingerprint ≠ fingerprintOf bytes) →
      (ingest s src bytes).1.items =
        s.items ++ [mkItem s.nextId (fingerprintOf bytes) src] ∧
      (ingest s src bytes).2 = .created s.nextId) ∧
    (∀ (s : PipelineState) (src : String) (bytes : List Nat) (it : ContentItem),
      (s.items.map ContentItem.fingerprint).Nodup → it ∈ s.items →
      it.fingerprint = fingerprintOf bytes →
      ingest s src bytes = (s, .duplicateContent it.id)) ∧
    (∀ (evs₀ : List PipelineEvent) (src : String) (bytes : List Nat)
        (evs₁ : List PipelineEvent) (src' : String),
      (∀ it ∈ (runPipeline evs₀).items, it.fingerprint ≠ fingerprintOf bytes) →
      ((((evs₁.foldl stepPipeline
            (stepPipeline (runPipeline evs₀) (.ingestFile src bytes))).items.filter
          (fun it => it.fingerprint == fingerprintOf bytes)).length = 1) ∧
        (ingest (evs₁.foldl stepPipeline
            (stepPipeline (runPipeline evs₀) (.ingestFile src bytes))) src' bytes).2 =
          .duplicateContent (runPipeline evs₀).nextId ∧
        (ingest (evs₁.foldl stepPipeline
            (stepPipeline (runPipeline evs₀) (.ingestFile src bytes))) src' bytes).1 =
          evs₁.foldl stepPipeline
            (stepPipeline (runPipeline evs₀) (.ingestFile src bytes)))) := by
  refine ⟨nodup_fps_run, ingest_fresh, ingest_duplicate, ?_⟩
  intro evs₀ src bytes evs₁ src' hfresh
  set s₀ := runPipeline evs₀ with hs₀
  have hstep : stepPipeline s₀ (.ingestFile src bytes) = (ingest s₀ src bytes).1 := rfl
  obtain ⟨hitems, _⟩ := ingest_fresh s₀ src bytes hfresh
  set s₁ := stepPipeline s₀ (.ingestFile src bytes) with hs₁
  have hmem₁ : ∃ it ∈ s₁.items, it.id = s₀.nextId ∧ it.fingerprint = fingerprintOf bytes := by
    refine ⟨mkItem s₀.nextId (fingerprintOf bytes) src, ?_, rfl, rfl⟩
    show mkItem s₀.nextId (fingerprintOf bytes) src ∈ (ingest s₀ src bytes).1.items
    rw [hitems]
    exact List.mem_append_right _ (List.mem_singleton.mpr rfl)
  have hnd₁ : (s₁.items.map ContentItem.fingerprint).Nodup :=
    nodup_fps_step s₀ _ (nodup_fps_run evs₀)
  set s₂ := evs₁.foldl stepPipeline s₁ with hs₂
  have hnd₂ : (s₂.items.map ContentItem.fingerprint).Nodup :=
    nodup_fps_foldl s₁ evs₁ hnd₁
  obtain ⟨u, hu, huid, hufp⟩ := item_preserved_foldl s₁ evs₁ _ _ hmem₁
  refine ⟨?_, ?_, ?_⟩
  · exact length_filter_fp_one s₂.items (fingerprintOf bytes) hnd₂ u hu hufp
  · rw [ingest_duplicate s₂ src' bytes u hnd₂ hu hufp, huid]
  · rw [ingest_duplicate s₂ src' bytes u hnd₂ hu hufp]

/-- Concrete instantiation of the dedup theorem: ingesting the same two
bytes twice (under different source names) registers one item and the second
ingestion returns DuplicateContent referencing it. -/
theorem ingest_dedup_witness :
    (∀ it ∈ (runPipeline []).items, it.fingerprint ≠ fingerprintOf [1, 2]) ∧
    (([].foldl stepPipeline
        (stepPipeline (runPipeline []) (.ingestFile "one" [1, 2]))).items.filter
      (fun it => it.fingerprint == fingerprintOf [1, 2])).length = 1 ∧
    (ingest ([].foldl stepPipeline
        (stepPipeline (runPipeline []) (.ingestFile "one" [1, 2]))) "two" [1, 2]).2 =
      .duplicateContent (runPipeline []).nextId := by
  have hfresh : ∀ it ∈ (runPipeline []).items, it.fingerprint ≠ fingerprintOf [1, 2] := by
    intro it hit
    simp [runPipeline, initState] at hit
  have h := ingest_dedup.2.2.2 [] "one" [1, 2] [] "two" hfresh
  exact ⟨hfresh, h.1, h.2.1⟩

lemma ingest_dup_iff (s : PipelineState) (src : String) (bytes : List Nat) :
    isDuplicateOutcome (ingest s src bytes).2 = true ↔
      fingerprintOf bytes ∈ s.items.map ContentItem.fingerprint := by
  cases hfind : s.items.find? (fun it => it.fingerprint == fingerprintOf bytes) with
  | some w =>
    simp only [ingest, hfind, isDuplicateOutcome]
    constructor
    · intro _
      have hw1 : w.fingerprint = fingerprintOf bytes := by
        have := List.find?_some hfind
        simpa using this
      rw [← hw1]
      exact List.mem_map_of_mem _ (List.mem_of_find?_eq_some hfind)
    · exact fun _ => trivial
  | none =>
    simp only [ingest, hfind, isDuplicateOutcome]
    constructor
    · intro hfalse
      cases hfalse
    · intro hmem
      rcases List.mem_map.mp hmem with ⟨it, hit, hfp⟩
      have := List.find?_eq_none.mp hfind it hit
      simp [hfp] at this

/-- C6: the fingerprint is a pure deterministic function of the content
bytes — equal byte sequences always hash identically; every item the
Ingestor creates carries exactly the fingerprint of its bytes; and the
duplicate-or-create decision depends only on the bytes and the registered
fingerprints, not on any other state. -/
theorem fingerprint_deterministic :
    (∀ b₁ b₂ : List Nat, b₁ = b₂ → fingerprintOf b₁ = fingerprintOf b₂) ∧
    (∀ (s : PipelineState) (src : String) (bytes : List Nat),
      ∀ it ∈ (ingest s src bytes).1.items,
        it ∈ s.items ∨ it.fingerprint = fingerprintOf bytes) ∧
    (∀ (s₁ s₂ : PipelineState) (src₁ src₂ : String) (b₁ b₂ : List Nat),
      b₁ = b₂ →
      s₁.items.map ContentItem.fingerprint = s₂.items.map ContentItem.fingerprint →
      isDuplicateOutcome (ingest s₁ src₁ b₁).2 = isDuplicateOutcome (ingest s₂ src₂ b₂).2) := by
  refine ⟨?_, ?_, ?_⟩
  · intro b₁ b₂ h
    rw [h]
  · intro s src bytes it hit
    revert hit
    simp only [ingest]
    cases hfind : s.items.find? (fun x => x.fingerprint == fingerprintOf bytes) with
    | some w => exact fun hit => Or.inl hit
    | none =>
      intro hit
      rcases List.mem_append.mp hit with hl | hr
      · exact Or.inl hl
      · simp only [List.mem_singleton] at hr
        subst hr
        exact Or.inr rfl
  · intro s₁ s₂ src₁ src₂ b₁ b₂ hb hfps
    subst hb
    rw [Bool.eq_iff_iff, ingest_dup_iff, ingest_dup_iff, hfps]

/-- Concrete instantiation of the determinism theorem: an empty and a
one-item state with the same registered fingerprints decide the duplicate
outcome of the same bytes identically. -/
theorem fingerprint_deterministic_witness :
    ([3, 4] : List Nat) = [3, 4] ∧
    fingerprintOf [3, 4] = fingerprintOf [3, 4] ∧
    isDuplicateOutcome (ingest (PipelineState.mk 0 []) "a" [3, 4]).2 =
      isDuplicateOutcome (ingest (PipelineState.mk 5 []) "b" [3, 4]).2 :=
  ⟨rfl, fingerprint_deterministic.1 [3, 4] [3, 4] rfl,
    fingerprint_deterministic.2.2 (PipelineState.mk 0 []) (PipelineState.mk 5 [])
      "a" "b" [3, 4] [3, 4] rfl rfl⟩

end ContentPipeline

namespace WebStudio

lemma collapseScan_nonws_prefix (xs rest : List Char)
    (hxs : ∀ c ∈ xs, isJsWhitespace c = false) :
    collapseScan false (xs ++ rest) = xs ++ collapseScan false rest := by
  induction xs with
  | nil => rfl
  | cons c cs ih =>
    have hc : isJsWhitespace c = false := hxs c (List.mem_cons_self c cs)
    simp only [List.cons_append, collapseScan, hc, Bool.false_eq_true, if_false,
      List.append_eq]
    rw [ih (fun x hx => hxs x (List.mem_cons_of_mem c hx))]

lemma collapseScan_inRun_allws (run ys : List Char)
    (hrun : ∀ c ∈ run, isJsWhitespace c = true)
    (hys : ∀ c ∈ ys.take 1, isJsWhitespace c = false) :
    collapseScan true (run ++ ys) = collapseScan false ys := by
  induction run with
  | nil =>
    cases ys with
    | nil => rfl
    | cons y ys2 =>
      have hy : isJsWhitespace y = false := hys y (by simp)
      simp only [List.nil_append, collapseScan, hy, Bool.false_eq_true, if_false]
  | cons d run2 ih =>
    have hd : isJsWhitespace d = true := hrun d (List.mem_cons_self d run2)
    simp only [List.cons_append, collapseScan, hd, if_true, List.append_eq]
    exact ih (fun x hx => hrun x (List.mem_cons_of_mem d hx))

lemma collapseScan_run (run ys : List Char)
    (hrun : ∀ c ∈ run, isJsWhitespace c = true) (hne : run ≠ [])
    (hys : ∀ c ∈ ys.take 1, isJsWhitespace c = false) :
    collapseScan false (run ++ ys) = '-' :: collapseScan false ys := by
  cases run with
  | nil => exact absurd rfl hne
  | cons c run2 =>
    have hc : isJsWhitespace c = true := hrun c (List.mem_cons_self c run2)
    simp only [List.cons_append, collapseScan, hc, if_true, Bool.false_eq_true, if_false,
      List.append_eq]
    rw [collapseScan_inRun_allws run2 ys (fun x hx => hrun x (List.mem_cons_of_mem c hx)) hys]

/-- C8: the website domain is derived deterministically from the request
name alone — it is the name lowercased with every maximal run of whitespace
replaced by a single hyphen (whitespace-free segments are copied verbatim,
each non-empty whitespace run contributes exactly one hyphen), and equal
names always yield equal domains. -/
theorem domain_from_name :
    (∀ (req : WebsiteRequest) (i n : Nat),
      (generateWebsiteContent req i n).domain = replaceWsRuns (req.name.map Char.toLower)) ∧
    (∀ xs : List Char, (∀ c ∈ xs, isJsWhitespace c = false) → replaceWsRuns xs = xs) ∧
    (∀ xs run ys : List Char,
      (∀ c ∈ xs, isJsWhitespace c = false) →
      (∀ c ∈ run, isJsWhitespace c = true) → run ≠ [] →
      (∀ c ∈ ys.take 1, isJsWhitespace c = false) →
      replaceWsRuns (xs ++ run ++ ys) = xs ++ '-' :: replaceWsRuns ys) ∧
    (∀ (r₁ r₂ : WebsiteRequest) (i₁ i₂ n₁ n₂ : Nat), r₁.name = r₂.name →
      (generateWebsiteContent r₁ i₁ n₁).domain = (generateWebsiteContent r₂ i₂ n₂).domain) := by
  refine ⟨fun req i n => rfl, ?_, ?_, ?_⟩
  · intro xs hxs
    have h := collapseScan_nonws_prefix xs [] hxs
    rw [List.append_nil] at h
    simpa [replaceWsRuns, collapseScan] using h
  · intro xs run ys hxs hrun hne hys
    unfold replaceWsRuns
    rw [List.append_assoc, collapseScan_nonws_prefix xs (run ++ ys) hxs,
      collapseScan_run run ys hrun hne hys]
  · intro r₁ r₂ i₁ i₂ n₁ n₂ hname
    simp only [generateWebsiteContent]
    rw [hname]

/-- Concrete instantiation of the domain theorem: the name consisting of a
letter, two spaces and a letter maps to letter-hyphen-letter. -/
theorem domain_from_name_witness :
    (∀ c ∈ [Char.ofNat 97], isJsWhitespace c = false) ∧
    (∀ c ∈ [' ', ' '], isJsWhitespace c = true) ∧
    ([' ', ' '] : List Char) ≠ [] ∧
    (∀ c ∈ [Char.ofNat 98].take 1, isJsWhitespace c = false) ∧
    replaceWsRuns ([Char.ofNat 97] ++ [' ', ' '] ++ [Char.ofNat 98]) =
      [Char.ofNat 97] ++ '-' :: replaceWsRuns [Char.ofNat 98] :=
  ⟨by decide, by decide, by decide, by decide,
    domain_from_name.2.2.1 [Char.ofNat 97] [' ', ' '] [Char.ofNat 98]
      (by decide) (by decide) (by decide) (by decide)⟩

end WebStudio

namespace Educational

lemma completeScore_bounds (rnd : ℚ) (h0 : 0 ≤ rnd) (h1 : rnd < 1) :
    70 ≤ completeScore rnd ∧ completeScore rnd ≤ 99 := by
  have hlow : (0 : Int) ≤ ⌊rnd * 30⌋ :=
    Int.floor_nonneg.mpr (mul_nonneg h0 (by norm_num))
  have hup : ⌊rnd * 30⌋ < 30 := by
    apply Int.floor_lt.mpr
    push_cast
    linarith
  unfold completeScore
  omega

/-- C9: handleLessonComplete marks the targeted lesson of the targeted
course completed with a score in [70, 99], recomputes that course progress
as 100 times the completed-lesson count over the lesson count, sets its
completion flag exactly when progress is 100, and leaves every course with
a different id unchanged. -/
theorem lesson_complete_update :
    ∀ (courses : List Course) (courseId lessonId : String) (rnd : ℚ),
      0 ≤ rnd → rnd < 1 →
      ((∀ (i : Nat) (c : Course), courses[i]? = some c → c.id ≠ courseId →
        (handleLessonComplete courses courseId lessonId rnd)[i]? = some c) ∧
       (70 ≤ completeScore rnd ∧ completeScore rnd ≤ 99) ∧
       (∀ (i : Nat) (c : Course), courses[i]? = some c → c.id = courseId →
        ∃ c2, (handleLessonComplete courses courseId lessonId rnd)[i]? = some c2 ∧
          c2.lessons = updateLessons c.lessons lessonId rnd ∧
          (∀ (j : Nat) (l : Lesson), c.lessons[j]? = some l → l.id = lessonId →
            ∃ l2, c2.lessons[j]? = some l2 ∧ l2.isCompleted = true ∧
              l2.score = some (completeScore rnd)) ∧
          c2.progress = 100 * ((c2.lessons.filter (fun l => l.isCompleted)).length : ℚ) /
            (c2.lessons.length : ℚ) ∧
          (c2.isCompleted = true ↔ c2.progress = 100))) := by
  intro courses courseId lessonId rnd h0 h1
  refine ⟨?_, completeScore_bounds rnd h0 h1, ?_⟩
  · intro i c hget hne
    unfold handleLessonComplete
    rw [List.getElem?_map, hget]
    simp [hne]
  · intro i c hget hid
    have hstep : (handleLessonComplete courses courseId lessonId rnd)[i]? =
        some { c with
          lessons := updateLessons c.lessons lessonId rnd
          progress := courseProgress (updateLessons c.lessons lessonId rnd)
          isCompleted :=
            decide (courseProgress (updateLessons c.lessons lessonId rnd) = 100) } := by
      unfold handleLessonComplete
      rw [List.getElem?_map, hget]
      simp [hid]
    refine ⟨_, hstep, rfl, ?_, ?_, ?_⟩
    · intro j l hj hl
      have hstep2 : (updateLessons c.lessons lessonId rnd)[j]? =
          some { l with isCompleted := true, score := some (completeScore rnd) } := by
        unfold updateLessons
        rw [List.getElem?_map, hj]
        simp [hl]
      exact ⟨_, hstep2, rfl, rfl⟩
    · show courseProgress (updateLessons c.lessons lessonId rnd) = _
      unfold courseProgress
      ring
    · exact decide_eq_true_iff ..

/-- Concrete instantiation of the lesson-completion theorem: a one-course,
one-lesson state with a zero random draw. -/
theorem lesson_complete_update_witness :
    (0 : ℚ) ≤ 0 ∧ (0 : ℚ) < 1 ∧
    ((∀ (i : Nat) (c : Course),
        [Course.mk "1" "t" "d" "AI" "beginner" 10
          [Lesson.mk "1-1" "l" "video" none none false none] 0 false []][i]? = some c →
        c.id ≠ "1" →
        (handleLessonComplete
          [Course.mk "1" "t" "d" "AI" "beginner" 10
            [Lesson.mk "1-1" "l" "video" none none false none] 0 false []]
          "1" "1-1" 0)[i]? = some c) ∧
     (70 ≤ completeScore 0 ∧ completeScore 0 ≤ 99) ∧
     (∀ (i : Nat) (c : Course),
        [Course.mk "1" "t" "d" "AI" "beginner" 10
          [Lesson.mk "1-1" "l" "video" none none false none] 0 false []][i]? = some c →
        c.id = "1" →
        ∃ c2, (handleLessonComplete
            [Course.mk "1" "t" "d" "AI" "beginner" 10
              [Lesson.mk "1-1" "l" "video" none none false none] 0 false []]
            "1" "1-1" 0)[i]? = some c2 ∧
          c2.lessons = updateLessons c.lessons "1-1" 0 ∧
          (∀ (j : Nat) (l : Lesson), c.lessons[j]? = some l → l.id = "1-1" →
            ∃ l2, c2.lessons[j]? = some l2 ∧ l2.isCompleted = true ∧
              l2.score = some (completeScore 0)) ∧
          c2.progress = 100 * ((c2.lessons.filter (fun l => l.isCompleted)).length : ℚ) /
            (c2.lessons.length : ℚ) ∧
          (c2.isCompleted = true ↔ c2.progress = 100))) :=
  ⟨le_refl 0, zero_lt_one,
    lesson_complete_update
      [Course.mk "1" "t" "d" "AI" "beginner" 10
        [Lesson.mk "1-1" "l" "video" none none false none] 0 false []]
      "1" "1-1" 0 (le_refl 0) zero_lt_one⟩

end Educational

namespace MotherUI

lemma handleMotherMessage_bound (s : MotherState) (m : MotherMsg)
    (h : s.auditTrail.length ≤ 50) :
    (handleMotherMessage s m).auditTrail.length ≤ 50 := by
  cases m with
  | childrenStatus cs => exact h
  | taskUpdate d => exact h
  | orbState st => exact h
  | other => exact h
  | auditLog log =>
    simp only [handleMotherMessage, List.length_take]
    exact min_le_left _ _

/-- C10: the audit trail never exceeds 50 entries under any message
sequence; every audit_log message puts its record at the front, keeps the
whole trail when it was shorter than 50, and discards the oldest entry when
the bound was reached. -/
theorem audit_trail_bound :
    (∀ (s : MotherState) (msgs : List MotherMsg), s.auditTrail.length ≤ 50 →
      (msgs.foldl handleMotherMessage s).auditTrail.length ≤ 50) ∧
    (∀ msgs : List MotherMsg,
      (msgs.foldl handleMotherMessage initialMotherState).auditTrail.length ≤ 50) ∧
    (∀ (s : MotherState) (log : String),
      (handleMotherMessage s (.auditLog log)).auditTrail.head? = some log) ∧
    (∀ (s : MotherState) (log : String), s.auditTrail.length < 50 →
      (handleMotherMessage s (.auditLog log)).auditTrail = log :: s.auditTrail) ∧
    (∀ (s : MotherState) (log : String), s.auditTrail.length = 50 →
      (handleMotherMessage s (.auditLog log)).auditTrail = log :: s.auditTrail.dropLast) := by
  have hfold : ∀ (msgs : List MotherMsg) (s : MotherState), s.auditTrail.length ≤ 50 →
      (msgs.foldl handleMotherMessage s).auditTrail.length ≤ 50 := by
    intro msgs
    induction msgs with
    | nil => exact fun s h => h
    | cons m tl ih => exact fun s h => ih _ (handleMotherMessage_bound s m h)
  refine ⟨fun s msgs h => hfold msgs s h, fun msgs => hfold msgs _ (by simp [initialMotherState]),
    ?_, ?_, ?_⟩
  · intro s log
    simp only [handleMotherMessage]
    rw [show (50 : Nat) = 49 + 1 from rfl, List.take_succ_cons]
    rfl
  · intro s log h
    simp only [handleMotherMessage]
    rw [show (50 : Nat) = 49 + 1 from rfl, List.take_succ_cons,
      List.take_of_length_le (by omega)]
  · intro s log h
    simp only [handleMotherMessage]
    rw [show (50 : Nat) = 49 + 1 from rfl, List.take_succ_cons,
      List.dropLast_eq_take, h]

/-- Concrete instantiation of the audit-trail theorem: two audit messages on
the initial state stay within the bound, and an audit message on a
one-entry trail prepends. -/
theorem audit_trail_bound_witness :
    initialMotherState.auditTrail.length ≤ 50 ∧
    ([MotherMsg.auditLog "a", MotherMsg.auditLog "b"].foldl handleMotherMessage
      initialMotherState).auditTrail.length ≤ 50 ∧
    (MotherState.mk [] (DecisionUpdate.mk none none none none)
        (OrbState.mk true false false 1 "blue" 60) ["x"]).auditTrail.length < 50 ∧
    (handleMotherMessage
      (MotherState.mk [] (DecisionUpdate.mk none none none none)
        (OrbState.mk true false false 1 "blue" 60) ["x"])
      (.auditLog "y")).auditTrail =
      "y" :: (MotherState.mk [] (DecisionUpdate.mk none none none none)
        (OrbState.mk true false false 1 "blue" 60) ["x"]).auditTrail :=
  ⟨by simp [initialMotherState],
    audit_trail_bound.1 initialMotherState [MotherMsg.auditLog "a", MotherMsg.auditLog "b"]
      (by simp [initialMotherState]),
    by simp,
    audit_trail_bound.2.2.2.1
      (MotherState.mk [] (DecisionUpdate.mk none none none none)
        (OrbState.mk true false false 1 "blue" 60) ["x"]) "y" (by simp)⟩

end MotherUI
